import Mathlib

/-!
Verification of the `ivol` Black-Scholes pricing library.

The Rust source (`src/black_scholes.rs`) is embedded shallowly over the real
numbers: `f64` values become `ℝ`, the `rv` crate's standard normal
distribution becomes the mathematical standard normal pdf/cdf, and the
fallible implied-volatility solver returns `Except ℝ ℝ` mirroring Rust's
`Result<f64, f64>`.  The one real-model convention is `is_normal`: among the
real numbers the only value for which Rust's `f64::is_normal` is false is
zero (NaN, the infinities and subnormals have no real counterpart).
-/

noncomputable section

namespace Ivol

open Real MeasureTheory

/-- Probability density function of the standard normal distribution,
`PDF(x) = exp(-x^2/2) / sqrt(2*pi)` (spec section 4.1, `rv` crate `Gaussian::standard().pdf`). -/
def normPdf (x : ℝ) : ℝ := Real.exp (-(x ^ 2) / 2) / Real.sqrt (2 * Real.pi)

/-- Cumulative distribution function of the standard normal distribution
(`rv` crate `Gaussian::standard().cdf`). -/
def normCdf (x : ℝ) : ℝ := ∫ t in Set.Iic x, normPdf t

/-- Parameters of BlackScholes (struct `BlackScholesParams` in `black_scholes.rs`). -/
structure BlackScholesParams where
  price : ℝ
  div_yield : ℝ
  strike : ℝ
  vol : ℝ
  rate : ℝ
  time_to_expiry : ℝ

/-- Real-valued model of Rust `f64::is_normal`: among real numbers, zero is the
only value that is not a normal float (NaN, infinities and subnormals are not
real numbers). -/
def is_normal (x : ℝ) : Prop := x ≠ 0

instance (x : ℝ) : Decidable (is_normal x) := inferInstanceAs (Decidable (x ≠ 0))

/-- D1 sub-formula of Black/Scholes (function `d1`). -/
def d1 (p : BlackScholesParams) : ℝ :=
  (Real.log (p.price / p.strike)
    + (p.rate - p.div_yield + p.vol * p.vol / 2) * p.time_to_expiry)
    / (p.vol * Real.sqrt p.time_to_expiry)

/-- D2 sub-formula of Black/Scholes (function `d2`). -/
def d2 (p : BlackScholesParams) : ℝ := d1 p - p.vol * Real.sqrt p.time_to_expiry

/-- Generic Black/Scholes calculation for both call and put options
(function `generic_black_scholes`). -/
def generic_black_scholes (is_call : Bool) (p : BlackScholesParams) : ℝ :=
  let sign : ℝ := if is_call then 1 else -1
  let D1 := sign * d1 p
  let D2 := sign * d2 p
  let d := Real.exp (-p.rate * p.time_to_expiry)
  let dd := Real.exp (-p.div_yield * p.time_to_expiry)
  sign * p.price * normCdf D1 * dd - sign * p.strike * normCdf D2 * d

/-- Call option premium (function `call_premium`). -/
def call_premium (p : BlackScholesParams) : ℝ := generic_black_scholes true p

/-- Put option premium (function `put_premium`). -/
def put_premium (p : BlackScholesParams) : ℝ := generic_black_scholes false p

/-- Put/call parity conversion (function `callput_price`). -/
def callput_price (is_call_price : Bool) (market_price : ℝ)
    (p : BlackScholesParams) : ℝ :=
  let sign : ℝ := if is_call_price then 1 else -1
  let dprice := p.price * Real.exp (-p.div_yield * p.time_to_expiry)
  let dstrike := p.strike * Real.exp (-p.rate * p.time_to_expiry)
  market_price - sign * (dprice - dstrike)

/-- Delta calculation for both put and calls (function `generic_delta`). -/
def generic_delta (is_call : Bool) (p : BlackScholesParams) : ℝ :=
  let sign : ℝ := if is_call then 1 else -1
  sign * Real.exp (-p.div_yield * p.time_to_expiry) * normCdf (sign * d1 p)

/-- Delta sensitivity for call options (function `call_delta`). -/
def call_delta (p : BlackScholesParams) : ℝ := generic_delta true p

/-- Delta sensitivity for put options (function `put_delta`). -/
def put_delta (p : BlackScholesParams) : ℝ := generic_delta false p

/-- BlackScholes derivative for volatility, together with the console output it
performs: the Rust function `dtv_dvol` executes
`println!("Not normal d1 ...")` whenever `d1` is not a normal float.  The
first component is the returned value, the second the list of lines printed
to the console during evaluation. -/
def dtv_dvol_out (p : BlackScholesParams) : ℝ × List String :=
  let d := d1 p
  let printed := if is_normal d then [] else ["Not normal d1"]
  (p.price * Real.exp (-p.div_yield * p.time_to_expiry) * normPdf d
      * Real.sqrt p.time_to_expiry,
    printed)

/-- Value returned by the Rust function `dtv_dvol`. -/
def dtv_dvol (p : BlackScholesParams) : ℝ := (dtv_dvol_out p).1

/-- Option's Vega (function `vega`). -/
def vega (p : BlackScholesParams) : ℝ := 0.01 * dtv_dvol p

/-- Approximate volatility, the Corrado-Miller initial guess
(function `approx_vol`). -/
def approx_vol (market_price : ℝ) (p : BlackScholesParams) : ℝ :=
  let dprice := p.price * Real.exp (-p.div_yield * p.time_to_expiry)
  let dstrike := p.strike * Real.exp (-p.rate * p.time_to_expiry)
  let psdiff := dprice - dstrike
  let mdiff := market_price - psdiff / 2
  let under_root := mdiff ^ 2 - psdiff ^ 2 / Real.pi
  let root := if under_root > 0 then Real.sqrt under_root else 0
  let sum := Real.sqrt (2 * Real.pi) / (dprice + dstrike) * (mdiff + root)
  sum / Real.sqrt p.time_to_expiry

/-- Precision for Newton-Raphson method (constant `EPS`). -/
def EPS : ℝ := 0.0000001

/-- Maximum number of iterations for Newton-Raphson method (constant `ITER`). -/
def ITER : ℕ := 60000

/-- Modelled from the spec: the root finder `find_root` of the external
`nrfind` crate (not part of this repository) as described in spec section
4.6: Newton-Raphson iteration `v_next = v - f v / fd v` starting from
`start`, returning success as soon as two successive iterates differ by less
than `eps`, and returning the last computed iterate as the error payload when
the iteration budget is exhausted. -/
def find_root (f fd : ℝ → ℝ) (start eps : ℝ) : ℕ → Except ℝ ℝ
  | 0 => .error start
  | n + 1 =>
      let next := start - f start / fd start
      if |next - start| < eps then .ok next
      else find_root f fd next eps n

/-- Post-processing of the root-finder result
(function `process_impl_vol_result`). -/
def process_impl_vol_result : Except ℝ ℝ → ℝ → Except ℝ ℝ
  | .ok v, _ => .ok v
  | .error e, vol_guess => if is_normal e then .error e else .error vol_guess

/-- Implied volatility from a call market price (function `call_impl_vol`). -/
def call_impl_vol (call_market_price : ℝ) (p : BlackScholesParams) :
    Except ℝ ℝ :=
  let func := fun v => call_premium { p with vol := v } - call_market_price
  let vol_deriv := fun v => dtv_dvol { p with vol := v }
  let vol_guess := approx_vol call_market_price p
  let root := find_root func vol_deriv vol_guess EPS ITER
  process_impl_vol_result root vol_guess

/-- Implied volatility from a put market price (function `put_impl_vol`). -/
def put_impl_vol (put_market_price : ℝ) (p : BlackScholesParams) :
    Except ℝ ℝ :=
  let func := fun v => put_premium { p with vol := v } - put_market_price
  let vol_deriv := fun v => dtv_dvol { p with vol := v }
  let call_market_price := callput_price false put_market_price p
  let vol_guess := approx_vol call_market_price p
  let root := find_root func vol_deriv vol_guess EPS ITER
  process_impl_vol_result root vol_guess

/-- The sign-parameterized valuation formula exactly as the spec states it
(spec section 4.3), with the sign a real number: this is the spec-side
definition used to compare the code against the spec's words. -/
def spec_price (sign : ℝ) (p : BlackScholesParams) : ℝ :=
  sign * p.price * normCdf (sign * d1 p)
      * Real.exp (-p.div_yield * p.time_to_expiry)
    - sign * p.strike * normCdf (sign * d2 p)
      * Real.exp (-p.rate * p.time_to_expiry)

/-- Acceptability of a solver result with respect to the fallback guess `g`:
either a success, or a failure whose payload is a normal value or is the
guess itself. -/
def payload_ok (g : ℝ) : Except ℝ ℝ → Prop
  | .ok _ => True
  | .error e => is_normal e ∨ e = g

/-- A concrete parameter set with positive price, strike, vol and time to
expiry on which `d1` evaluates to zero: spot equals strike and
`rate - div_yield + vol^2/2 = 0`. -/
def zeroD1Params : BlackScholesParams where
  price := 1
  div_yield := 2
  strike := 1
  vol := 2
  rate := 0
  time_to_expiry := 1

/-! ### Facts about the standard normal distribution -/

theorem normPdf_pos (x : ℝ) : 0 < normPdf x := by
  unfold normPdf
  have h2 : (0:ℝ) < 2 * Real.pi := by positivity
  exact div_pos (Real.exp_pos _) (Real.sqrt_pos.mpr h2)

theorem normPdf_neg (x : ℝ) : normPdf (-x) = normPdf x := by
  unfold normPdf
  rw [neg_sq]

theorem normPdf_eq (x : ℝ) :
    normPdf x = Real.exp (-(1/2) * x ^ 2) * (Real.sqrt (2 * Real.pi))⁻¹ := by
  unfold normPdf
  rw [div_eq_mul_inv]
  ring_nf

theorem normPdf_continuous : Continuous normPdf := by
  unfold normPdf
  fun_prop

theorem normPdf_integrable : Integrable normPdf := by
  have h : Integrable fun x : ℝ => Real.exp (-(1/2) * x ^ 2) :=
    integrable_exp_neg_mul_sq (by norm_num)
  have := h.mul_const (Real.sqrt (2 * Real.pi))⁻¹
  refine this.congr ?_
  filter_upwards with x
  rw [normPdf_eq]

theorem integral_normPdf : ∫ x, normPdf x = 1 := by
  have h2pi : (0:ℝ) < 2 * Real.pi := by positivity
  have hs : Real.sqrt (2 * Real.pi) ≠ 0 := ne_of_gt (Real.sqrt_pos.mpr h2pi)
  calc ∫ x, normPdf x
      = ∫ x, Real.exp (-(1/2) * x ^ 2) * (Real.sqrt (2 * Real.pi))⁻¹ := by
        simp_rw [normPdf_eq]
    _ = (∫ x, Real.exp (-(1/2) * x ^ 2)) * (Real.sqrt (2 * Real.pi))⁻¹ :=
        integral_mul_right _ _
    _ = Real.sqrt (Real.pi / (1/2)) * (Real.sqrt (2 * Real.pi))⁻¹ := by
        rw [integral_gaussian]
    _ = 1 := by
        have : Real.pi / (1/2) = 2 * Real.pi := by ring
        rw [this, mul_inv_cancel₀ hs]

theorem normCdf_neg_eq (x : ℝ) : normCdf (-x) = ∫ t in Set.Ioi x, normPdf t := by
  unfold normCdf
  have h := integral_comp_neg_Iic (-x) normPdf
  simp_rw [normPdf_neg] at h
  rw [h, neg_neg]

theorem normCdf_add_normCdf_neg (x : ℝ) : normCdf x + normCdf (-x) = 1 := by
  rw [normCdf_neg_eq]
  unfold normCdf
  rw [intervalIntegral.integral_Iic_add_Ioi (normPdf_integrable.integrableOn)
      (normPdf_integrable.integrableOn)]
  exact integral_normPdf

theorem normCdf_eq_add_intervalIntegral (x : ℝ) :
    normCdf x = normCdf 0 + ∫ t in (0:ℝ)..x, normPdf t := by
  unfold normCdf
  rw [← intervalIntegral.integral_Iic_sub_Iic normPdf_integrable.integrableOn
      normPdf_integrable.integrableOn]
  ring

theorem normCdf_hasDerivAt (x : ℝ) : HasDerivAt normCdf (normPdf x) x := by
  have hint : IntervalIntegrable normPdf volume 0 x :=
    normPdf_integrable.intervalIntegrable
  have hmeas : StronglyMeasurableAtFilter normPdf (nhds x) :=
    normPdf_continuous.stronglyMeasurable.stronglyMeasurableAtFilter
  have hder :
      HasDerivAt (fun u => ∫ t in (0:ℝ)..u, normPdf t) (normPdf x) x :=
    intervalIntegral.integral_hasDerivAt_right hint hmeas
      normPdf_continuous.continuousAt
  have : HasDerivAt (fun u => normCdf 0 + ∫ t in (0:ℝ)..u, normPdf t)
      (normPdf x) x := hder.const_add _
  refine this.congr_of_eventuallyEq ?_
  filter_upwards with u
  exact normCdf_eq_add_intervalIntegral u

/-! ### Put-call parity and the sign-parameterized formula -/

theorem call_sub_put (p : BlackScholesParams) :
    call_premium p - put_premium p
      = p.price * Real.exp (-p.div_yield * p.time_to_expiry)
        - p.strike * Real.exp (-p.rate * p.time_to_expiry) := by
  have e1 : normCdf (-d1 p) = 1 - normCdf (d1 p) := by
    have := normCdf_add_normCdf_neg (d1 p); linarith
  have e2 : normCdf (-d2 p) = 1 - normCdf (d2 p) := by
    have := normCdf_add_normCdf_neg (d2 p); linarith
  simp only [call_premium, put_premium, generic_black_scholes]
  norm_num
  rw [e1, e2]
  ring

/-- C1: the call premium is the single sign-parameterized Black-Scholes formula
at sign `+1` and the put premium is the same formula at sign `-1`, both
computed through the one shared generic function, with `d1` and `d2` as the
spec states them. -/
theorem call_put_premium_spec_formula (p : BlackScholesParams) :
    call_premium p = spec_price 1 p ∧ put_premium p = spec_price (-1) p
    ∧ call_premium p = generic_black_scholes true p
    ∧ put_premium p = generic_black_scholes false p
    ∧ d1 p = (Real.log (p.price / p.strike)
        + (p.rate - p.div_yield + p.vol ^ 2 / 2) * p.time_to_expiry)
        / (p.vol * Real.sqrt p.time_to_expiry)
    ∧ d2 p = d1 p - p.vol * Real.sqrt p.time_to_expiry := by
  refine ⟨rfl, rfl, rfl, rfl, ?_, rfl⟩
  unfold d1
  rw [pow_two]

/-- C3: put-call parity, the difference of the code's call and put premiums
is within 1e-6 of the discounted forward difference (it is in fact exactly
equal in real arithmetic). -/
theorem put_call_parity_within_tolerance (p : BlackScholesParams) :
    |call_premium p - put_premium p
      - (p.price * Real.exp (-p.div_yield * p.time_to_expiry)
        - p.strike * Real.exp (-p.rate * p.time_to_expiry))| ≤ 0.000001 := by
  rw [call_sub_put, sub_self, abs_zero]
  norm_num

/-- C10: delta parity, the call delta minus the put delta equals
`exp(-div_yield * time_to_expiry)` exactly. -/
theorem call_delta_sub_put_delta (p : BlackScholesParams) :
    call_delta p - put_delta p
      = Real.exp (-p.div_yield * p.time_to_expiry) := by
  have e1 : normCdf (-d1 p) = 1 - normCdf (d1 p) := by
    have := normCdf_add_normCdf_neg (d1 p); linarith
  simp only [call_delta, put_delta, generic_delta]
  norm_num
  rw [e1]
  ring

/-- C6: the approximate volatility estimator equals the closed-form
Corrado-Miller expression with the square-root argument clamped at zero. -/
theorem approx_vol_formula (m : ℝ) (p : BlackScholesParams) :
    approx_vol m p =
      Real.sqrt (2 * Real.pi)
        / (p.price * Real.exp (-p.div_yield * p.time_to_expiry)
            + p.strike * Real.exp (-p.rate * p.time_to_expiry))
        * ((m - (p.price * Real.exp (-p.div_yield * p.time_to_expiry)
              - p.strike * Real.exp (-p.rate * p.time_to_expiry)) / 2)
          + Real.sqrt (max 0
              ((m - (p.price * Real.exp (-p.div_yield * p.time_to_expiry)
                  - p.strike * Real.exp (-p.rate * p.time_to_expiry)) / 2) ^ 2
                - (p.price * Real.exp (-p.div_yield * p.time_to_expiry)
                  - p.strike * Real.exp (-p.rate * p.time_to_expiry)) ^ 2
                  / Real.pi)))
        / Real.sqrt p.time_to_expiry := by
  simp only [approx_vol]
  by_cases h :
      (m - (p.price * Real.exp (-p.div_yield * p.time_to_expiry)
          - p.strike * Real.exp (-p.rate * p.time_to_expiry)) / 2) ^ 2
        - (p.price * Real.exp (-p.div_yield * p.time_to_expiry)
          - p.strike * Real.exp (-p.rate * p.time_to_expiry)) ^ 2 / Real.pi > 0
  · rw [if_pos h, max_eq_right h.le]
  · rw [if_neg h, max_eq_left (not_lt.mp h), Real.sqrt_zero]

/-- C4: both implied-volatility solvers return a two-variant result whose
failure payload is either a normal value or the closed-form initial guess
`approx_vol` (a real number, hence finite); the substitution happens in
`process_impl_vol_result` exactly when the root-finder's error payload is
not normal. -/
theorem impl_vol_error_payload (m g : ℝ) (p : BlackScholesParams)
    (r : Except ℝ ℝ) :
    payload_ok (approx_vol m p) (call_impl_vol m p)
    ∧ payload_ok (approx_vol (callput_price false m p) p) (put_impl_vol m p)
    ∧ payload_ok g (process_impl_vol_result r g)
    ∧ (∀ e, ¬ is_normal e →
        process_impl_vol_result (.error e) g = .error g)
    ∧ (∀ e, is_normal e →
        process_impl_vol_result (.error e) g = .error e) := by
  have key : ∀ (r0 : Except ℝ ℝ) (g0 : ℝ),
      payload_ok g0 (process_impl_vol_result r0 g0) := by
    intro r0 g0
    match r0 with
    | .ok v => exact trivial
    | .error e =>
        show payload_ok g0 (if is_normal e then .error e else .error g0)
        by_cases h : is_normal e
        · rw [if_pos h]; exact Or.inl h
        · rw [if_neg h]; exact Or.inr rfl
  refine ⟨key _ _, key _ _, key _ _, ?_, ?_⟩
  · intro e h
    show (if is_normal e then (Except.error e : Except ℝ ℝ) else .error g)
      = .error g
    rw [if_neg h]
  · intro e h
    show (if is_normal e then (Except.error e : Except ℝ ℝ) else .error g)
      = .error e
    rw [if_pos h]

/-- C4 witness: at the concrete error payload 0 (not a normal value) the
guess 1 is substituted, while the normal payload 5 is passed through. -/
theorem impl_vol_error_payload_witness :
    process_impl_vol_result (.error 0) 1 = .error 1
    ∧ process_impl_vol_result (.error 5) 1 = .error 5 :=
  ⟨(impl_vol_error_payload 0 1 zeroD1Params (.ok 0)).2.2.2.1 0
      (by simp [is_normal]),
    (impl_vol_error_payload 0 1 zeroD1Params (.ok 0)).2.2.2.2 5
      (by norm_num [is_normal])⟩

/-- C8: vega is exactly 0.01 times the unscaled volatility derivative
`dtv_dvol`, and the call solver's Newton-Raphson derivative is the unscaled
derivative, i.e. 100 times vega, not vega itself. -/
theorem vega_scaling_and_solver_derivative (p : BlackScholesParams) (m : ℝ) :
    vega p = 0.01 * (p.price * Real.exp (-p.div_yield * p.time_to_expiry)
        * normPdf (d1 p) * Real.sqrt p.time_to_expiry)
    ∧ vega p = 0.01 * dtv_dvol p
    ∧ call_impl_vol m p = process_impl_vol_result
        (find_root (fun v => call_premium { p with vol := v } - m)
          (fun v => 100 * vega { p with vol := v }) (approx_vol m p) EPS ITER)
        (approx_vol m p) := by
  refine ⟨rfl, rfl, ?_⟩
  have h : (fun v => dtv_dvol { p with vol := v })
      = fun v => 100 * vega { p with vol := v } := by
    funext v
    unfold vega
    ring
  unfold call_impl_vol
  rw [h]

/-- C9 (amended): the volatility derivative routine returns the analytic
value, and it writes a console line exactly when `d1` is not a normal
value. -/
theorem dtv_dvol_output_characterization (p : BlackScholesParams) :
    (dtv_dvol_out p).1 = p.price * Real.exp (-p.div_yield * p.time_to_expiry)
        * normPdf (d1 p) * Real.sqrt p.time_to_expiry
    ∧ ((dtv_dvol_out p).2 = [] ↔ is_normal (d1 p)) := by
  refine ⟨rfl, ?_⟩
  unfold dtv_dvol_out
  by_cases h : is_normal (d1 p)
  · simp [h]
  · simp [h]

theorem d1_zeroD1Params : d1 zeroD1Params = 0 := by
  unfold d1 zeroD1Params
  norm_num

/-- C9 counterexample: on the valid input `price = 1, strike = 1, vol = 2,
rate = 0, div_yield = 2, time_to_expiry = 1` the quantity `d1` is zero,
hence not a normal float, and `dtv_dvol` prints a line to the console: the
core is not free of I/O on every input. -/
theorem dtv_dvol_prints_on_valid_input :
    (dtv_dvol_out zeroD1Params).2 ≠ [] := by
  unfold dtv_dvol_out
  rw [d1_zeroD1Params]
  simp [is_normal]

/-- C5: the put implied-volatility solver coincides with the call solver
applied to the parity-converted market price: the put-side Newton residual
is pointwise equal to the call-side residual at the converted price, and the
seed, derivative and post-processing agree. -/
theorem put_impl_vol_eq_call_impl_vol (m : ℝ) (p : BlackScholesParams) :
    put_impl_vol m p = call_impl_vol (callput_price false m p) p := by
  have hres : (fun v => put_premium { p with vol := v } - m)
      = fun v => call_premium { p with vol := v } - callput_price false m p := by
    funext v
    have h := call_sub_put { p with vol := v }
    unfold callput_price
    norm_num at h ⊢
    linarith
  unfold put_impl_vol call_impl_vol
  rw [hres]

/-! ### Monotonicity of the call premium in volatility -/

theorem call_premium_eq (p : BlackScholesParams) :
    call_premium p
      = p.price * normCdf (d1 p) * Real.exp (-p.div_yield * p.time_to_expiry)
        - p.strike * normCdf (d2 p) * Real.exp (-p.rate * p.time_to_expiry) := by
  simp only [call_premium, generic_black_scholes]
  norm_num

theorem d1_sq_sub_d2_sq (p : BlackScholesParams) (hT : 0 < p.time_to_expiry)
    (hv : p.vol ≠ 0) :
    d1 p ^ 2 - d2 p ^ 2
      = 2 * (Real.log (p.price / p.strike)
          + (p.rate - p.div_yield) * p.time_to_expiry) := by
  have hs : Real.sqrt p.time_to_expiry ≠ 0 :=
    (Real.sqrt_pos.mpr hT).ne'
  have hs2 : Real.sqrt p.time_to_expiry ^ 2 = p.time_to_expiry :=
    Real.sq_sqrt hT.le
  have hd1 : d1 p * (p.vol * Real.sqrt p.time_to_expiry)
      = Real.log (p.price / p.strike)
        + (p.rate - p.div_yield + p.vol * p.vol / 2) * p.time_to_expiry :=
    div_mul_cancel₀ _ (mul_ne_zero hv hs)
  have hd2 : d2 p = d1 p - p.vol * Real.sqrt p.time_to_expiry := rfl
  have expand : d1 p ^ 2 - d2 p ^ 2
      = 2 * (d1 p * (p.vol * Real.sqrt p.time_to_expiry))
        - (p.vol * Real.sqrt p.time_to_expiry) ^ 2 := by
    rw [hd2]; ring
  rw [expand, hd1, mul_pow, hs2]
  ring

theorem pdf_identity (p : BlackScholesParams) (hS : 0 < p.price)
    (hK : 0 < p.strike) (hT : 0 < p.time_to_expiry) (hv : p.vol ≠ 0) :
    p.price * Real.exp (-p.div_yield * p.time_to_expiry) * normPdf (d1 p)
      = p.strike * Real.exp (-p.rate * p.time_to_expiry) * normPdf (d2 p) := by
  have hL : Real.log (p.price / p.strike)
      = Real.log p.price - Real.log p.strike := Real.log_div hS.ne' hK.ne'
  have key := d1_sq_sub_d2_sq p hT hv
  rw [hL] at key
  have main : Real.log p.price + -p.div_yield * p.time_to_expiry
        + -(d1 p ^ 2) / 2
      = Real.log p.strike + -p.rate * p.time_to_expiry
        + -(d2 p ^ 2) / 2 := by linarith
  calc p.price * Real.exp (-p.div_yield * p.time_to_expiry) * normPdf (d1 p)
      = Real.exp (Real.log p.price + -p.div_yield * p.time_to_expiry
          + -(d1 p ^ 2) / 2) / Real.sqrt (2 * Real.pi) := by
        rw [Real.exp_add, Real.exp_add, Real.exp_log hS]
        unfold normPdf
        ring
    _ = Real.exp (Real.log p.strike + -p.rate * p.time_to_expiry
          + -(d2 p ^ 2) / 2) / Real.sqrt (2 * Real.pi) := by rw [main]
    _ = p.strike * Real.exp (-p.rate * p.time_to_expiry) * normPdf (d2 p) := by
        rw [Real.exp_add, Real.exp_add, Real.exp_log hK]
        unfold normPdf
        ring

theorem d1_vol_hasDerivAt (p : BlackScholesParams) (hT : 0 < p.time_to_expiry)
    {v : ℝ} (hv : 0 < v) :
    HasDerivAt (fun w => d1 { p with vol := w })
      ((v * v * p.time_to_expiry / 2
          - (Real.log (p.price / p.strike)
            + (p.rate - p.div_yield) * p.time_to_expiry))
        / (v * v * Real.sqrt p.time_to_expiry)) v := by
  have hs : 0 < Real.sqrt p.time_to_expiry := Real.sqrt_pos.mpr hT
  have hD : v * Real.sqrt p.time_to_expiry ≠ 0 := mul_ne_zero hv.ne' hs.ne'
  have h1 : HasDerivAt (fun w : ℝ => w * w) (1 * v + v * 1) v :=
    (hasDerivAt_id v).mul (hasDerivAt_id v)
  have h2 : HasDerivAt (fun w : ℝ =>
      Real.log (p.price / p.strike)
        + (p.rate - p.div_yield + w * w / 2) * p.time_to_expiry)
      ((1 * v + v * 1) / 2 * p.time_to_expiry) v :=
    (((h1.div_const 2).const_add (p.rate - p.div_yield)).mul_const
      p.time_to_expiry).const_add _
  have h3 : HasDerivAt (fun w : ℝ => w * Real.sqrt p.time_to_expiry)
      (1 * Real.sqrt p.time_to_expiry) v := (hasDerivAt_id v).mul_const _
  have h4 := h2.div h3 hD
  have heq : (fun w => d1 { p with vol := w })
      = fun w : ℝ => (Real.log (p.price / p.strike)
        + (p.rate - p.div_yield + w * w / 2) * p.time_to_expiry)
        / (w * Real.sqrt p.time_to_expiry) := rfl
  rw [heq]
  convert h4 using 1
  field_simp
  ring

theorem d2_vol_hasDerivAt (p : BlackScholesParams) (hT : 0 < p.time_to_expiry)
    {v : ℝ} (hv : 0 < v) :
    HasDerivAt (fun w => d2 { p with vol := w })
      ((v * v * p.time_to_expiry / 2
          - (Real.log (p.price / p.strike)
            + (p.rate - p.div_yield) * p.time_to_expiry))
        / (v * v * Real.sqrt p.time_to_expiry)
        - Real.sqrt p.time_to_expiry) v := by
  have h := (d1_vol_hasDerivAt p hT hv).sub
    ((hasDerivAt_id v).mul_const (Real.sqrt p.time_to_expiry))
  have heq : (fun w => d2 { p with vol := w })
      = fun w => d1 { p with vol := w } - w * Real.sqrt p.time_to_expiry := rfl
  rw [heq]
  convert h using 1
  ring

theorem call_premium_vol_hasDerivAt (p : BlackScholesParams) (hS : 0 < p.price)
    (hK : 0 < p.strike) (hT : 0 < p.time_to_expiry) {v : ℝ} (hv : 0 < v) :
    HasDerivAt (fun w => call_premium { p with vol := w })
      (dtv_dvol { p with vol := v }) v := by
  have hd1 := d1_vol_hasDerivAt p hT hv
  have hd2 := d2_vol_hasDerivAt p hT hv
  have hc1 := (normCdf_hasDerivAt (d1 { p with vol := v })).comp v hd1
  have hc2 := (normCdf_hasDerivAt (d2 { p with vol := v })).comp v hd2
  have hfull := ((hc1.const_mul p.price).mul_const
      (Real.exp (-p.div_yield * p.time_to_expiry))).sub
    ((hc2.const_mul p.strike).mul_const
      (Real.exp (-p.rate * p.time_to_expiry)))
  have heq : (fun w => call_premium { p with vol := w })
      = fun w => p.price * normCdf (d1 { p with vol := w })
          * Real.exp (-p.div_yield * p.time_to_expiry)
        - p.strike * normCdf (d2 { p with vol := w })
          * Real.exp (-p.rate * p.time_to_expiry) := by
    funext w
    exact call_premium_eq { p with vol := w }
  rw [heq]
  convert hfull using 1
  have hid := pdf_identity { p with vol := v } hS hK hT hv.ne'
  have hval : dtv_dvol { p with vol := v }
      = p.price * Real.exp (-p.div_yield * p.time_to_expiry)
        * normPdf (d1 { p with vol := v }) * Real.sqrt p.time_to_expiry := rfl
  rw [hval]
  set D1d := (v * v * p.time_to_expiry / 2
      - (Real.log (p.price / p.strike)
        + (p.rate - p.div_yield) * p.time_to_expiry))
    / (v * v * Real.sqrt p.time_to_expiry) with hD1d
  linear_combination (Real.sqrt p.time_to_expiry - D1d) * hid

/-- C7: for positive price, strike and time to expiry, the call premium is a
strictly increasing function of the volatility on `vol > 0`, the other
parameters held fixed. -/
theorem call_premium_strictMonoOn_vol (p : BlackScholesParams)
    (hS : 0 < p.price) (hK : 0 < p.strike) (hT : 0 < p.time_to_expiry) :
    StrictMonoOn (fun v => call_premium { p with vol := v })
      (Set.Ioi (0:ℝ)) := by
  have hderiv : ∀ v ∈ Set.Ioi (0:ℝ),
      HasDerivAt (fun w => call_premium { p with vol := w })
        (dtv_dvol { p with vol := v }) v :=
    fun v hv => call_premium_vol_hasDerivAt p hS hK hT hv
  apply strictMonoOn_of_deriv_pos (convex_Ioi 0)
  · intro v hv
    exact (hderiv v hv).continuousAt.continuousWithinAt
  · intro v hv
    rw [interior_Ioi] at hv
    rw [(hderiv v hv).deriv]
    have hval : dtv_dvol { p with vol := v }
        = p.price * Real.exp (-p.div_yield * p.time_to_expiry)
          * normPdf (d1 { p with vol := v }) * Real.sqrt p.time_to_expiry := rfl
    rw [hval]
    exact mul_pos (mul_pos (mul_pos hS (Real.exp_pos _)) (normPdf_pos _))
      (Real.sqrt_pos.mpr hT)

/-- C7 witness: at the concrete parameter set `price = 1, div_yield = 0,
strike = 1, rate = 0, time_to_expiry = 1`, the call premium at `vol = 1` is
strictly below the call premium at `vol = 2`. -/
theorem call_premium_strictMonoOn_vol_witness :
    call_premium ⟨1, 0, 1, 1, 0, 1⟩ < call_premium ⟨1, 0, 1, 2, 0, 1⟩ :=
  call_premium_strictMonoOn_vol ⟨1, 0, 1, 1, 0, 1⟩ (by norm_num) (by norm_num)
    (by norm_num) (Set.mem_Ioi.mpr (by norm_num)) (Set.mem_Ioi.mpr (by norm_num))
    (by norm_num)

end Ivol
